import Mathlib

/-!
Verification development for the vocabulary ingestion core:
a shallow embedding of app/core/utils.py (normalize_word),
app/core/loading.py (LoadingStateStore), app/core/db_pool.py
(DatabasePool), and app/core/database.py (_rebuild_sqlite_from_excel,
start_loading, is_data_loaded), together with theorems settling the
specification claims about them.

Conventions of the embedding:
 - Python ints are Int, list lengths are Nat, float percentages are
   modelled as exact rationals (the claims are about which value is
   computed, not about rounding).
 - Python datetime.utcnow().isoformat() is an ambient input: every
   mutator that stamps the state takes the fresh timestamp string as
   an explicit argument.
 - Python exceptions are modelled as Except / Option String error
   results that propagate the way the source propagates them.
-/

/-! ## Characters and Python string primitives (app/core/utils.py) -/

/-- A character kept by the regex class in normalize_word:
re.sub removes everything outside A-Za-z, hyphen (45) and apostrophe (39). -/
def isKeptChar (c : Char) : Bool :=
  (65 ≤ c.toNat && c.toNat ≤ 90) || (97 ≤ c.toNat && c.toNat ≤ 122) ||
    c.toNat == 45 || c.toNat == 39

/-- The ASCII whitespace characters removed by Python str.strip():
space, tab, newline, carriage return, vertical tab, form feed. -/
def isPySpace (c : Char) : Bool :=
  c.toNat == 32 || c.toNat == 9 || c.toNat == 10 || c.toNat == 13 ||
    c.toNat == 11 || c.toNat == 12

/-- ASCII lowercasing as performed by Python str.lower() on the ASCII
range (after the regex substitution only ASCII letters, hyphen,
apostrophe and spaces remain, so this is the behavior the source
exercises). -/
def pyLowerChar (c : Char) : Char :=
  if 65 ≤ c.toNat && c.toNat ≤ 90 then Char.ofNat (c.toNat + 32) else c

/-- Python str.lstrip() on a character list. -/
def stripL (l : List Char) : List Char := l.dropWhile isPySpace

/-- Python str.rstrip() on a character list. -/
def stripR (l : List Char) : List Char := (l.reverse.dropWhile isPySpace).reverse

/-- Python str.strip() on a character list. -/
def pyStripChars (l : List Char) : List Char := stripR (stripL l)

/-- Python str.strip() on strings. -/
def pyStripString (s : String) : String := ⟨pyStripChars s.data⟩

/-- The substitution re.sub(pattern, space, text) for the pattern
matching one or more non-kept characters: each maximal run of
characters outside A-Za-z, hyphen, apostrophe becomes a single space.
The flag records whether we are inside a run whose replacement space
has already been emitted. -/
def subAux : Bool → List Char → List Char
  | _, [] => []
  | inRun, c :: rest =>
    if isKeptChar c then c :: subAux false rest
    else if inRun then subAux true rest
    else ' ' :: subAux true rest

/-- re.sub applied from outside any run. -/
def subRuns (l : List Char) : List Char := subAux false l

/-- The character-list body of normalize_word:
strip, replace non-kept runs by single spaces, strip, lower. -/
def normalizeChars (l : List Char) : List Char :=
  (pyStripChars (subRuns (pyStripChars l))).map pyLowerChar

/-- normalize_word from app/core/utils.py:
text = str(word).strip(); re.sub removes non letter, hyphen, apostrophe
runs to single spaces; then .strip().lower(). -/
def normalize_word (w : String) : String := ⟨normalizeChars w.data⟩

/-- Structural predicate: the list (if nonempty) starts with a kept
character. -/
def keptHeaded : List Char → Bool
  | [] => true
  | c :: _ => isKeptChar c

/-- Structural predicate: the list (if nonempty) ends with a kept
character. -/
def keptLasted : List Char → Bool
  | [] => true
  | [c] => isKeptChar c
  | _ :: c :: rest => keptLasted (c :: rest)

/-- Structural predicate: every character is kept or a space, and every
space is immediately followed by a kept character or is the final
character — the shape re.sub of the normalization produces. -/
def spacedOK : List Char → Bool
  | [] => true
  | [c] => isKeptChar c || c == ' '
  | c :: d :: rest =>
    (isKeptChar c && spacedOK (d :: rest)) ||
    (c == ' ' && isKeptChar d && spacedOK (d :: rest))

/-- Python list slicing xs[s:] for an arbitrary (possibly negative)
start index: a negative start counts from the end, clamped at zero.
Used for latest = latest[-latest_limit:] in increment_processed. -/
def pySliceFrom (xs : List String) (s : Int) : List String :=
  if 0 ≤ s then xs.drop s.toNat else xs.drop ((xs.length + s : Int)).toNat

/-! ## LoadingStateStore (app/core/loading.py) -/

/-- The mutable state dictionary of LoadingStateStore. All methods of
the source class hold one lock around their whole read-modify-write,
so the store is modelled as a value with pure transition functions. -/
structure LoadingState where
  running : Bool
  file : Option String
  current_sheet : Option String
  processed_words : Int
  total_words : Int
  percent : ℚ
  error : Option String
  latest_words : List String
  timestamp : Option String
deriving DecidableEq, Repr

/-- DEFAULT_STATE of LoadingStateStore. -/
def defaultLoadingState : LoadingState :=
  { running := false, file := none, current_sheet := none,
    processed_words := 0, total_words := 0, percent := 0,
    error := none, latest_words := [], timestamp := none }

/-- snapshot(): under the lock the source returns a deep JSON copy;
with value semantics the copy is the value itself. -/
def snapshot (st : LoadingState) : LoadingState := st

/-- reset_for_file(file_name, total_rows): replaces the state wholesale
(int(total_rows or 0) is the identity on integers). -/
def reset_for_file (fileName : String) (totalRows : Int) (now : String) : LoadingState :=
  { running := true, file := some fileName, current_sheet := none,
    processed_words := 0, total_words := totalRows, percent := 0,
    error := none, latest_words := [], timestamp := some now }

/-- set_current_sheet(sheet). -/
def set_current_sheet (st : LoadingState) (sheet : Option String) (now : String) : LoadingState :=
  { st with current_sheet := sheet, timestamp := some now }

/-- mark_finished(error): running := False; `if error:` only overwrites
the error field for a truthy (non-None, non-empty) argument. -/
def mark_finished (st : LoadingState) (error : Option String) (now : String) : LoadingState :=
  { st with running := false,
            error := match error with
              | some e => if e = "" then st.error else some e
              | none => st.error,
            timestamp := some now }

/-- clear_error(): error := None and the timestamp is stamped afresh. -/
def clear_error (st : LoadingState) (now : String) : LoadingState :=
  { st with error := none, timestamp := some now }

/-- increment_processed(increment, sample_word, sample_step, latest_limit).
Returns the state after the call together with the value the call
produces: .ok of the new processed count on normal return, or .error
when the source would raise ZeroDivisionError (processed % 0 inside
the sampling branch). On that raise the lock has already seen
processed_words and percent updated but not the timestamp, which the
returned state reflects. -/
def increment_processed (st : LoadingState) (inc : Int) (sample : Option String)
    (step : Int) (limit : Int) (now : String) : LoadingState × Except String Int :=
  let processed := st.processed_words + inc
  let t := st.total_words
  let pc : ℚ := if 0 < t then ((processed : ℚ) / (t : ℚ)) * 100 else 0
  let st1 := { st with processed_words := processed, percent := pc }
  match sample with
  | some w =>
    if w ≠ "" && pyStripString w ≠ "" then
      if step = 0 then (st1, .error "integer division or modulo by zero")
      else
        let st2 :=
          if processed.fmod step = 0 then
            let latest0 := st1.latest_words ++ [w]
            let latest1 :=
              if (latest0.length : Int) > limit then pySliceFrom latest0 (-limit)
              else latest0
            { st1 with latest_words := latest1 }
          else st1
        ({ st2 with timestamp := some now }, .ok processed)
    else ({ st1 with timestamp := some now }, .ok processed)
  | none => ({ st1 with timestamp := some now }, .ok processed)

/-- One recorded call to increment_processed: increment, sample word,
sample step, and the ambient timestamp of the call. -/
structure IncCall where
  inc : Int
  sample : Option String
  step : Int
  now : String

/-- A sequence of increment_processed calls against one store, all with
the same latest_limit (the sample cap under consideration). -/
def runIncrements (limit : Int) : LoadingState → List IncCall → LoadingState
  | st, [] => st
  | st, c :: rest =>
      runIncrements limit (increment_processed st c.inc c.sample c.step limit c.now).1 rest

/-! ## DatabasePool (app/core/db_pool.py) -/

/-- The state of a DatabasePool: the FIFO queue of idle connections
(connections are opaque handles, modelled as numeric ids), the
_initialized flag, and the configured pool_size. The one lock of the
source protects initialize and close_all; Queue operations are
themselves thread safe, so the whole pool is modelled as a value. -/
structure PoolState where
  queue : List Nat
  _initialized : Bool
  pool_size : Nat
deriving DecidableEq, Repr

/-- initialize(): a no-op when already initialized, otherwise creates
pool_size fresh connections and enqueues them. -/
def initPool (st : PoolState) : PoolState :=
  if st._initialized then st
  else { st with queue := st.queue ++ List.range st.pool_size, _initialized := true }

/-- get_connection(timeout): Queue.get with a timeout. A connection is
taken from the head of the queue when one is idle; when the queue stays
empty for the whole timeout the Empty exception is caught and None is
returned. The bounded wait itself is abstracted away: an empty queue
yields none. -/
def get_connection (st : PoolState) : Option Nat × PoolState :=
  match st.queue with
  | [] => (none, st)
  | c :: rest => (some c, { st with queue := rest })

/-- return_connection(conn): `if conn:` guards only against a null
handle (connection objects are always truthy), then the connection is
enqueued again. -/
def return_connection (st : PoolState) (c : Nat) : PoolState :=
  { st with queue := st.queue ++ [c] }

/-- close_all(): drains the queue, closing each connection, and resets
the _initialized flag. -/
def close_all (st : PoolState) : PoolState :=
  { st with queue := [], _initialized := false }

/-- get_db(): the contextmanager acquires a connection, RAISES
an exception when get_connection returned None, otherwise runs the
body and returns the connection in the finally block. -/
def get_db {α : Type} (st : PoolState) (body : Nat → α) : Except String α × PoolState :=
  match get_connection st with
  | (none, st1) => (.error "无法从连接池获取数据库连接", st1)
  | (some c, st1) => (.ok (body c), return_connection st1 c)

/-! ## Loader orchestrator state (app/core/database.py, app_state.py) -/

/-- The module-level state observed and mutated by start_loading:
the shared LoadingStateStore singleton, app_state.data_loaded,
app_state.current_excel_file, and the loading_thread reference
(thread handles modelled as numeric ids). -/
structure SysState where
  loading : LoadingState
  data_loaded : Bool
  current_excel_file : Option String
  loading_thread : Option Nat
deriving DecidableEq, Repr

/-- What one call to start_loading produces: its boolean return value,
the module state it leaves behind, and whether it spawned a background
thread. -/
structure StartOutcome where
  started : Bool
  state : SysState
  spawned : Bool
deriving DecidableEq, Repr

/-- start_loading(file_path): returns False at once when the progress
snapshot reports running; otherwise clears the data-loaded state,
creates the worker thread, stores the reference and starts it.
newThread is the identity of the thread that would be spawned. -/
def start_loading (st : SysState) (newThread : Nat) : StartOutcome :=
  if (snapshot st.loading).running then
    { started := false, state := st, spawned := false }
  else
    { started := true,
      state := { st with data_loaded := false, current_excel_file := none,
                         loading_thread := some newThread },
      spawned := true }

/-! ## is_data_loaded (app/core/database.py) -/

/-- The ambient facts is_data_loaded consults: whether the SQLite file
exists on disk, whether it contains a table named entries, whether the
connection-pool path (app_state.db_pool set) is in use, and whether the
respective probe raises an exception (pool exhausted, corrupt file...). -/
structure LoadProbeEnv where
  fileExists : Bool
  hasEntriesTable : Bool
  poolInitialized : Bool
  poolQueryFails : Bool
  directQueryFails : Bool
deriving DecidableEq, Repr

/-- is_data_loaded(): when app_state.data_loaded is already true it is
returned unchanged; otherwise the database file is probed for the
entries table, through the pool when available and by a direct
connection otherwise. A successful probe that finds the table flips
the flag to true; an inner exception on the pool path or any exception
reaching the outer handler forces it to false; otherwise it keeps its
value. Returns (result, new app_state.data_loaded). -/
def is_data_loaded (env : LoadProbeEnv) (loaded : Bool) : Bool × Bool :=
  if loaded then (loaded, loaded)
  else
    let loaded1 :=
      if env.fileExists then
        if env.poolInitialized then
          if env.poolQueryFails then false
          else if env.hasEntriesTable then true else loaded
        else
          if env.directQueryFails then false
          else if env.hasEntriesTable then true else loaded
      else loaded
    (loaded1, loaded1)

/-! ## Ingestion engine (app/core/database.py, _rebuild_sqlite_from_excel) -/

/-- One worksheet row as the engine sees it: the tuple of cell values
yielded by iter_rows(values_only=True), each cell either None or its
str() rendering. -/
abbrev PyRow := List (Option String)

/-- One worksheet: its title, max_column (0 standing in for the falsy
None of an empty sheet), and its rows in order. -/
structure Sheet where
  title : String
  maxColumn : Nat
  rows : List PyRow
deriving DecidableEq, Repr

/-- One row of the entries table as inserted by the engine
(the auto-increment id is the position in the list). -/
structure Entry where
  word_norm : String
  word : Option String
  phonetic : Option String
  meaning : Option String
  sheet : String
  row_index : Nat
deriving DecidableEq, Repr

/-- The committed contents of the SQLite store relevant to the claims:
whether the entries table exists, its committed rows, and whether the
two indexes have been built. -/
structure Db where
  hasTable : Bool
  rows : List Entry
  indexed : Bool
deriving DecidableEq, Repr

/-- word_col_idx for a sheet: max_cols = ws.max_column or 1; column 1
when the sheet has more than one column, else column 0. -/
def wordColIdx (s : Sheet) : Nat :=
  let maxCols := if s.maxColumn = 0 then 1 else s.maxColumn
  if maxCols > 1 then 1 else 0

/-- display_word for a row: the word cell when the index is in range
(row[word_col_idx] if word_col_idx < len(row or ()) else None),
empty for None, else str(...).strip(). -/
def displayOf (wcol : Nat) (row : PyRow) : String :=
  match row.getD wcol none with
  | none => ""
  | some s => pyStripString s

/-- The 6-field record the engine buffers for one row: normalized word,
display word or None when empty, optional phonetic (column 2) and
meaning (column 3), sheet title and 0-based row index. -/
def rowToEntry (sheetTitle : String) (wcol : Nat) (idx : Nat) (row : PyRow) : Entry :=
  let display := displayOf wcol row
  let phonetic := if row.length > 2 then row.getD 2 none else none
  let meaning := if row.length > 3 then row.getD 3 none else none
  { word_norm := normalize_word display,
    word := if display = "" then none else some display,
    phonetic := phonetic, meaning := meaning,
    sheet := sheetTitle, row_index := idx }

/-- The running state of one ingestion pass: how many times the shared
loading_cancelled flag has been polled, the clock counter feeding the
ambient timestamp supply, the progress store, the rows already sent to
the open transaction (cur.executemany inside BEGIN..COMMIT), and the
batch buffer not yet flushed. -/
structure IngestSt where
  polls : Nat
  clock : Nat
  ls : LoadingState
  txn : List Entry
  batch : List Entry
deriving Repr

/-- The inner row loop of _rebuild_sqlite_from_excel for one sheet.
cancel gives the value of the shared loading_cancelled flag at each
poll, times the ambient timestamp at each clock tick. Per row: poll the
flag (rollback and raise RuntimeError when set), build the record,
append it to the batch, report progress with stride 10 and cap 40
(an exception out of increment_processed would propagate and abort the
transaction), and flush the batch into the transaction at 10000 rows.
Returns the error message of the raised exception, if any, and the
state reached. -/
def procRows (cancel : Nat → Bool) (times : Nat → String) (sheetTitle : String)
    (wcol : Nat) : List PyRow → Nat → IngestSt → Option String × IngestSt
  | [], _, st => (none, st)
  | row :: rest, idx, st =>
    if cancel st.polls then (some "loading cancelled", { st with polls := st.polls + 1 })
    else
      let st1 := { st with polls := st.polls + 1 }
      let e := rowToEntry sheetTitle wcol idx row
      let batch1 := st1.batch ++ [e]
      let ip := increment_processed st1.ls 1 (some (displayOf wcol row)) 10 40 (times st1.clock)
      let st2 := { st1 with ls := ip.1, clock := st1.clock + 1, batch := batch1 }
      match ip.2 with
      | .error err => (some err, st2)
      | .ok _ =>
        let st3 :=
          if batch1.length ≥ 10000 then { st2 with txn := st2.txn ++ batch1, batch := [] }
          else st2
        procRows cancel times sheetTitle wcol rest (idx + 1) st3

/-- The outer sheet loop: per sheet, poll the cancellation flag
(rollback and raise when set), publish the sheet name, run the row
loop, and flush the remaining batch into the transaction. -/
def procSheets (cancel : Nat → Bool) (times : Nat → String) :
    List Sheet → IngestSt → Option String × IngestSt
  | [], st => (none, st)
  | s :: rest, st =>
    if cancel st.polls then (some "loading cancelled", { st with polls := st.polls + 1 })
    else
      let st1 := { st with polls := st.polls + 1,
                           ls := set_current_sheet st.ls (some s.title) (times st.clock),
                           clock := st.clock + 1 }
      match procRows cancel times s.title (wordColIdx s) s.rows 0 st1 with
      | (some e, st2) => (some e, st2)
      | (none, st2) =>
        let st3 :=
          if st2.batch = [] then st2
          else { st2 with txn := st2.txn ++ st2.batch, batch := [] }
        procSheets cancel times rest st3

/-- _rebuild_sqlite_from_excel(file_path) over an in-memory workbook.
The PRAGMA statements have no observable effect on the model. DROP
TABLE and CREATE TABLE run in autocommit mode before BEGIN, so the
empty recreated table is committed no matter how the run ends. The
explicit transaction then covers every insert and the two CREATE INDEX
statements: they become visible only at con.commit(). clear_error runs
right after BEGIN. On the cancellation path con.rollback() discards the
transaction and RuntimeError(loading cancelled) is raised; on any other
exception the close in the finally block likewise discards the open
transaction. The WAL checkpoint, journal-mode switch and VACUUM after
the commit do not change the committed rows. Returns the outcome of
the call, the committed database, and the progress store it leaves. -/
def rebuild (wb : List Sheet) (cancel : Nat → Bool) (times : Nat → String)
    (ls0 : LoadingState) : Except String Unit × Db × LoadingState :=
  let db1 : Db := { hasTable := true, rows := [], indexed := false }
  let ls1 := clear_error ls0 (times 0)
  let st0 : IngestSt := { polls := 0, clock := 1, ls := ls1, txn := [], batch := [] }
  match procSheets cancel times wb st0 with
  | (some e, st) => (.error e, db1, st.ls)
  | (none, st) => (.ok (), { hasTable := true, rows := st.txn, indexed := true }, st.ls)

/-- The records of one sheet, in row order, starting at row index i. -/
def entriesFrom (title : String) (wcol : Nat) : List PyRow → Nat → List Entry
  | [], _ => []
  | r :: rest, i => rowToEntry title wcol i r :: entriesFrom title wcol rest (i + 1)

/-- All records a complete run over the workbook inserts. -/
def allEntries : List Sheet → List Entry
  | [] => []
  | s :: rest => entriesFrom s.title (wordColIdx s) s.rows 0 ++ allEntries rest

/-- The number of cancellation polls a run to completion performs:
one per sheet plus one per row. -/
def totalPolls : List Sheet → Nat
  | [] => 0
  | s :: rest => 1 + s.rows.length + totalPolls rest

/-! ## Concrete fixtures used by witnesses and counterexamples -/

/-- A module state whose progress snapshot reports a running job. -/
def sysRunning : SysState :=
  { loading := { defaultLoadingState with running := true },
    data_loaded := true, current_excel_file := some "old.xlsx",
    loading_thread := some 3 }

/-- A one-sheet, one-row workbook. -/
def wbSmall : List Sheet :=
  [{ title := "S", maxColumn := 2, rows := [[none, some "hello"]] }]

/-- A one-sheet workbook whose single word cell carries punctuation and
padding. -/
def wbScenB : List Sheet :=
  [{ title := "S", maxColumn := 2,
     rows := [[none, some " Don't-Stop! ", some "p", some "m"]] }]

/-- A progress state with an error and a timestamp already set. -/
def lsWithError : LoadingState :=
  { defaultLoadingState with error := some "boom", timestamp := some "t0" }

/-- An uninitialized two-connection pool. -/
def poolFresh : PoolState := { queue := [], _initialized := false, pool_size := 2 }

/-- A pool with no idle connection in its queue. -/
def poolDrained : PoolState := { queue := [], _initialized := true, pool_size := 5 }

/-! ## Character-level facts -/

theorem char_lower_range : ∀ n : Nat, n < 91 → 65 ≤ n →
    97 ≤ (Char.ofNat (n + 32)).toNat ∧ (Char.ofNat (n + 32)).toNat ≤ 122 := by decide

theorem isKeptChar_iff (c : Char) : isKeptChar c = true ↔
    (65 ≤ c.toNat ∧ c.toNat ≤ 90) ∨ (97 ≤ c.toNat ∧ c.toNat ≤ 122) ∨
      c.toNat = 45 ∨ c.toNat = 39 := by
  simp [isKeptChar, Bool.or_eq_true, Bool.and_eq_true, decide_eq_true_eq, beq_iff_eq,
    and_assoc, or_assoc]

theorem isPySpace_iff (c : Char) : isPySpace c = true ↔
    c.toNat = 32 ∨ c.toNat = 9 ∨ c.toNat = 10 ∨ c.toNat = 13 ∨
      c.toNat = 11 ∨ c.toNat = 12 := by
  simp [isPySpace, Bool.or_eq_true, beq_iff_eq, or_assoc]

theorem kept_not_space {c : Char} (h : isKeptChar c = true) : isPySpace c = false := by
  rw [isKeptChar_iff] at h
  by_contra hs
  rw [Bool.not_eq_false, isPySpace_iff] at hs
  omega

theorem isKeptChar_pyLower {c : Char} (h : isKeptChar c = true) :
    isKeptChar (pyLowerChar c) = true := by
  unfold pyLowerChar
  by_cases hu : (65 ≤ c.toNat ∧ c.toNat ≤ 90)
  · rw [if_pos (by simpa [Bool.and_eq_true, decide_eq_true_eq] using hu)]
    have := char_lower_range c.toNat (by omega) (by omega)
    rw [isKeptChar_iff]
    omega
  · rw [if_neg (by simpa [Bool.and_eq_true, decide_eq_true_eq] using hu)]
    exact h

theorem pyLower_fix_of_not_upper {c : Char} (h : ¬(65 ≤ c.toNat ∧ c.toNat ≤ 90)) :
    pyLowerChar c = c := by
  unfold pyLowerChar
  rw [if_neg (by simpa [Bool.and_eq_true, decide_eq_true_eq] using h)]

theorem pyLower_idem (c : Char) : pyLowerChar (pyLowerChar c) = pyLowerChar c := by
  by_cases hu : (65 ≤ c.toNat ∧ c.toNat ≤ 90)
  · have hr := char_lower_range c.toNat (by omega) (by omega)
    have h1 : pyLowerChar c = Char.ofNat (c.toNat + 32) := by
      unfold pyLowerChar
      rw [if_pos (by simpa [Bool.and_eq_true, decide_eq_true_eq] using hu)]
    rw [h1]
    exact pyLower_fix_of_not_upper (by omega)
  · rw [pyLower_fix_of_not_upper hu, pyLower_fix_of_not_upper hu]

theorem pyLower_space : pyLowerChar ' ' = ' ' := by decide

/-! ## increment_processed: field-level behavior -/

theorem increment_percent (st : LoadingState) (inc : Int) (sample : Option String)
    (step limit : Int) (now : String) :
    ((increment_processed st inc sample step limit now).1).percent =
      if 0 < st.total_words
      then ((st.processed_words + inc : Int) : ℚ) / ((st.total_words : Int) : ℚ) * 100
      else 0 := by
  cases sample with
  | none => rfl
  | some w =>
    show (if (w ≠ "" && pyStripString w ≠ "") = true then _ else _ :
      LoadingState × Except String Int).1.percent = _
    split
    · show (if step = 0 then _ else _ : LoadingState × Except String Int).1.percent = _
      split
      · rfl
      · show LoadingState.percent
          { (if _ then _ else _ : LoadingState) with timestamp := some now } = _
        split <;> rfl
    · rfl

theorem increment_total (st : LoadingState) (inc : Int) (sample : Option String)
    (step limit : Int) (now : String) :
    ((increment_processed st inc sample step limit now).1).total_words = st.total_words := by
  cases sample with
  | none => rfl
  | some w =>
    show (if (w ≠ "" && pyStripString w ≠ "") = true then _ else _ :
      LoadingState × Except String Int).1.total_words = _
    split
    · show (if step = 0 then _ else _ : LoadingState × Except String Int).1.total_words = _
      split
      · rfl
      · show LoadingState.total_words
          { (if _ then _ else _ : LoadingState) with timestamp := some now } = _
        split <;> rfl
    · rfl

theorem pySliceFrom_suffix (xs : List String) (s : Int) : pySliceFrom xs s <:+ xs := by
  unfold pySliceFrom
  split <;> exact List.drop_suffix _ _

theorem increment_latest_cases (st : LoadingState) (inc : Int) (sample : Option String)
    (step limit : Int) (now : String) :
    (increment_processed st inc sample step limit now).1.latest_words = st.latest_words ∨
    ∃ w, sample = some w ∧
      (increment_processed st inc sample step limit now).1.latest_words
        <:+ st.latest_words ++ [w] := by
  cases sample with
  | none => exact Or.inl rfl
  | some w =>
    by_cases h1 : (w ≠ "" && pyStripString w ≠ "") = true
    · by_cases h2 : step = 0
      · simp only [increment_processed, if_pos h1, if_pos h2]
        exact Or.inl trivial
      · by_cases h3 : (st.processed_words + inc).fmod step = 0
        · simp only [increment_processed, if_pos h1, if_neg h2, if_pos h3]
          refine Or.inr ⟨w, rfl, ?_⟩
          split
          · exact pySliceFrom_suffix _ _
          · exact List.suffix_refl _
        · simp only [increment_processed, if_pos h1, if_neg h2, if_neg h3]
          exact Or.inl trivial
    · simp only [increment_processed, if_neg h1]
      exact Or.inl trivial

theorem increment_latest_len {st : LoadingState} {inc : Int} {sample : Option String}
    {step limit : Int} {now : String} (hl : 1 ≤ limit)
    (h : (st.latest_words.length : Int) ≤ limit) :
    ((increment_processed st inc sample step limit now).1.latest_words.length : Int)
      ≤ limit := by
  cases sample with
  | none => exact h
  | some w =>
    by_cases h1 : (w ≠ "" && pyStripString w ≠ "") = true
    · by_cases h2 : step = 0
      · simp only [increment_processed, if_pos h1, if_pos h2]
        exact h
      · by_cases h3 : (st.processed_words + inc).fmod step = 0
        · by_cases h4 : (((st.latest_words ++ [w]).length : Nat) : Int) > limit
          · simp only [increment_processed, if_pos h1, if_neg h2, if_pos h3]
            rw [if_pos (by simpa using h4)]
            unfold pySliceFrom
            rw [if_neg (by omega)]
            rw [List.length_drop]
            simp only [List.length_append, List.length_cons, List.length_nil] at h4 ⊢
            omega
          · simp only [increment_processed, if_pos h1, if_neg h2, if_pos h3]
            rw [if_neg (by simpa using h4)]
            simp only [List.length_append, List.length_cons, List.length_nil] at h4 ⊢
            omega
        · simp only [increment_processed, if_pos h1, if_neg h2, if_neg h3]
          exact h
    · simp only [increment_processed, if_neg h1]
      exact h

theorem runIncrements_cap {limit : Int} (hl : 1 ≤ limit) :
    ∀ (calls : List IncCall) (st : LoadingState),
      (st.latest_words.length : Int) ≤ limit →
      ((runIncrements limit st calls).latest_words.length : Int) ≤ limit := by
  intro calls
  induction calls with
  | nil => intro st h; exact h
  | cons c rest ih =>
    intro st h
    exact ih _ (increment_latest_len hl h)

theorem runIncrements_percent_zero {limit : Int} :
    ∀ (calls : List IncCall) (st : LoadingState),
      st.total_words ≤ 0 → st.percent = 0 →
      (runIncrements limit st calls).percent = 0 := by
  intro calls
  induction calls with
  | nil => intro st _ hp; exact hp
  | cons c rest ih =>
    intro st ht _
    refine ih _ ?_ ?_
    · rw [increment_total]; exact ht
    · rw [increment_percent, if_neg (by omega)]

/-! ## Claim theorems: progress store and orchestrator -/

/-- Claim C1: calling start_loading while the progress snapshot reports
running yields False with no observable change — data_loaded,
current_excel_file, the progress store and the loader thread reference
are untouched, and no background thread is spawned. -/
theorem start_loading_single_flight (st : SysState) (tid : Nat)
    (h : st.loading.running = true) :
    start_loading st tid = { started := false, state := st, spawned := false } := by
  unfold start_loading snapshot
  rw [if_pos h]

/-- Witness for C1 at a concrete running state. -/
theorem start_loading_single_flight_witness :
    sysRunning.loading.running = true ∧
    start_loading sysRunning 7 =
      { started := false, state := sysRunning, spawned := false } :=
  ⟨rfl, start_loading_single_flight sysRunning 7 rfl⟩

/-- Claim C3: increment_processed recomputes percent as
processed/total*100 exactly when total is positive and as 0 otherwise
(the division is guarded, also on the path that raises inside the
sampling branch), and after reset_for_file with total 0 every further
call leaves percent at 0. -/
theorem increment_percent_guarded :
    (∀ (st : LoadingState) (inc : Int) (sample : Option String) (step limit : Int)
        (now : String),
      ((increment_processed st inc sample step limit now).1).percent =
        if 0 < st.total_words
        then ((st.processed_words + inc : Int) : ℚ) / ((st.total_words : Int) : ℚ) * 100
        else 0) ∧
    (∀ (fileName now : String) (limit : Int) (calls : List IncCall),
      (runIncrements limit (reset_for_file fileName 0 now) calls).percent = 0) := by
  constructor
  · exact increment_percent
  · intro fileName now limit calls
    exact runIncrements_percent_zero calls _ (by simp [reset_for_file]) rfl

/-- Claim C4 counterexample: with sample cap 0 a sampled call leaves
one element in latest_words (Python latest[-0:] is the whole list), so
the length bound latest_words.length ≤ cap fails at cap 0. -/
theorem latest_words_cap_zero_counterexample :
    ¬ ((increment_processed (reset_for_file "f" 0 "t0") 10 (some "w") 10 0
          "t1").1.latest_words.length ≤ 0) := by decide

/-- Claim C4 (amended): for every positive sample cap, after any
sequence of increment_processed calls from a fresh job state,
latest_words holds at most cap entries; and any one call either leaves
latest_words unchanged or replaces it by a suffix of the old list with
the sampled word appended — trimmed from the front, most recent last. -/
theorem latest_words_cap_invariant :
    (∀ (limit : Int), 1 ≤ limit →
      ∀ (fileName : String) (total : Int) (now : String) (calls : List IncCall),
        ((runIncrements limit (reset_for_file fileName total now)
            calls).latest_words.length : Int) ≤ limit) ∧
    (∀ (st : LoadingState) (inc : Int) (sample : Option String) (step limit : Int)
        (now : String),
      (increment_processed st inc sample step limit now).1.latest_words
          = st.latest_words ∨
      ∃ w, sample = some w ∧
        (increment_processed st inc sample step limit now).1.latest_words
          <:+ st.latest_words ++ [w]) := by
  constructor
  · intro limit hl fileName total now calls
    refine runIncrements_cap hl calls _ ?_
    simp only [reset_for_file, List.length_nil, Nat.cast_zero]
    omega
  · exact increment_latest_cases

/-- Witness for the amended C4 at the cap 40 the engine uses. -/
theorem latest_words_cap_invariant_witness :
    (1 : Int) ≤ 40 ∧
    ((runIncrements 40 (reset_for_file "f" 0 "t")
        [{ inc := 10, sample := some "w", step := 10, now := "t1" }]).latest_words.length
      : Int) ≤ 40 :=
  ⟨by norm_num, latest_words_cap_invariant.1 40 (by norm_num) "f" 0 "t" _⟩

/-- Claim C7 counterexample: clear_error does NOT leave the timestamp
unchanged — it stamps the state afresh, so a state stamped t0 cleared
at t1 shows a different timestamp. -/
theorem clear_error_timestamp_counterexample :
    (clear_error lsWithError "t1").timestamp ≠ lsWithError.timestamp := by decide

/-- Claim C7 (amended): clear_error clears the error field and updates
the timestamp; every other field (running, file, current_sheet,
processed, total, percent, latest samples) is unchanged. -/
theorem clear_error_frame (st : LoadingState) (now : String) :
    (clear_error st now).error = none ∧
    (clear_error st now).timestamp = some now ∧
    (clear_error st now).running = st.running ∧
    (clear_error st now).file = st.file ∧
    (clear_error st now).current_sheet = st.current_sheet ∧
    (clear_error st now).processed_words = st.processed_words ∧
    (clear_error st now).total_words = st.total_words ∧
    (clear_error st now).percent = st.percent ∧
    (clear_error st now).latest_words = st.latest_words :=
  ⟨rfl, rfl, rfl, rfl, rfl, rfl, rfl, rfl, rfl⟩

/-! ## Claim theorems: connection pool -/

/-- Claim C8 counterexample: after close_all the pool is NOT treated as
uninitialized until the next initialize — get_connection never consults
the flag, so returning a borrowed connection after close_all makes a
subsequent acquire succeed with no initialize call in between. -/
theorem close_all_reacquire_counterexample :
    (get_connection
        (return_connection (close_all (get_connection (initPool poolFresh)).2) 0)).1
      = some 0 ∧
    (return_connection (close_all (get_connection (initPool poolFresh)).2)
        0)._initialized = false := by decide

/-- Claim C8 (amended): close_all leaves an empty queue and a cleared
flag, so an acquire performed right after it waits out its timeout and
yields none; but acquire does not consult the flag — any connection
returned to the drained pool is handed out again without initialize
being called. -/
theorem close_all_drains (st : PoolState) :
    (get_connection (close_all st)).1 = none ∧
    (close_all st)._initialized = false ∧
    ∀ c, (get_connection (return_connection (close_all st) c)).1 = some c := by
  exact ⟨rfl, rfl, fun c => rfl⟩

/-- Claim C9 counterexample: a pool-acquire timeout does surface as a
raised exception on the get_db path — the contextmanager raises as soon
as get_connection yields none. -/
theorem get_db_raises_counterexample :
    (get_db poolDrained (fun c => c)).1 =
      Except.error "无法从连接池获取数据库连接" := rfl

/-- Claim C9 (amended): get_connection on an exhausted pool returns the
well-defined none value after its bounded wait rather than throwing,
but the scoped get_db path converts that none into a raised exception
that its callers must catch. -/
theorem pool_timeout_value (st : PoolState) (body : Nat → Nat) (h : st.queue = []) :
    get_connection st = (none, st) ∧
    (get_db st body).1 = Except.error "无法从连接池获取数据库连接" := by
  rcases st with ⟨q, ini, ps⟩
  cases h
  exact ⟨rfl, rfl⟩

/-- Witness for the amended C9 at a concrete drained pool. -/
theorem pool_timeout_value_witness :
    poolDrained.queue = [] ∧
    (get_connection poolDrained = (none, poolDrained) ∧
      (get_db poolDrained (fun c => c)).1 = Except.error "无法从连接池获取数据库连接") :=
  ⟨rfl, pool_timeout_value poolDrained (fun c => c) rfl⟩

/-- Claim C10: with the data_loaded flag false, is_data_loaded returns
true and flips the flag back to true exactly when the database file
exists, the probe (pooled when a pool is set, direct otherwise) does
not raise, and the entries table is present; in every other case it
returns false and the flag stays false. -/
theorem is_data_loaded_recovers (env : LoadProbeEnv) :
    is_data_loaded env false =
      (env.fileExists &&
         (if env.poolInitialized then !env.poolQueryFails else !env.directQueryFails) &&
         env.hasEntriesTable,
       env.fileExists &&
         (if env.poolInitialized then !env.poolQueryFails else !env.directQueryFails) &&
         env.hasEntriesTable) := by
  rcases env with ⟨f, t, p, pq, dq⟩
  cases f <;> cases t <;> cases p <;> cases pq <;> cases dq <;> rfl

/-! ## Normalization idempotence machinery -/

theorem spacedOK_head {c : Char} {t : List Char} (h : spacedOK (c :: t) = true) :
    isKeptChar c = true ∨ c = ' ' := by
  cases t with
  | nil =>
    simpa [spacedOK, Bool.or_eq_true, beq_iff_eq] using h
  | cons d r =>
    simp only [spacedOK, Bool.or_eq_true, Bool.and_eq_true, beq_iff_eq] at h
    rcases h with ⟨hc, _⟩ | ⟨⟨hc, _⟩, _⟩
    · exact Or.inl hc
    · exact Or.inr hc

theorem spacedOK_tail {c : Char} {t : List Char} (h : spacedOK (c :: t) = true) :
    spacedOK t = true := by
  cases t with
  | nil => rfl
  | cons d r =>
    simp only [spacedOK, Bool.or_eq_true, Bool.and_eq_true, beq_iff_eq] at h ⊢
    rcases h with ⟨_, hs⟩ | ⟨_, hs⟩ <;>
      simpa [spacedOK, Bool.or_eq_true, Bool.and_eq_true, beq_iff_eq] using hs

theorem spacedOK_space_cons {d : Char} {r : List Char}
    (h : spacedOK (' ' :: d :: r) = true) :
    isKeptChar d = true ∧ spacedOK (d :: r) = true := by
  simp only [spacedOK, Bool.or_eq_true, Bool.and_eq_true, beq_iff_eq] at h
  rcases h with ⟨hc, _⟩ | ⟨⟨_, hd⟩, hs⟩
  · exact absurd hc (by decide)
  · exact ⟨hd, hs⟩

theorem spacedOK_cons_kept {c : Char} {t : List Char} (hc : isKeptChar c = true)
    (ht : spacedOK t = true) : spacedOK (c :: t) = true := by
  cases t with
  | nil => simp [spacedOK, hc]
  | cons d r => simp [spacedOK, hc, ht]

theorem spacedOK_cons_space {t : List Char} (ht : spacedOK t = true)
    (hh : keptHeaded t = true) : spacedOK (' ' :: t) = true := by
  cases t with
  | nil => decide
  | cons d r =>
    simp only [keptHeaded] at hh
    simp [spacedOK, hh, ht]

theorem spacedOK_mem : ∀ (l : List Char), spacedOK l = true →
    ∀ c ∈ l, isKeptChar c = true ∨ c = ' ' := by
  intro l
  induction l with
  | nil => intro _ c hc; cases hc
  | cons a t ih =>
    intro h c hc
    rcases List.mem_cons.mp hc with rfl | hc
    · exact spacedOK_head h
    · exact ih (spacedOK_tail h) c hc

theorem spacedOK_dropLast : ∀ (l : List Char) (a : Char),
    spacedOK (l ++ [a]) = true → spacedOK l = true := by
  intro l
  induction l with
  | nil => intro a _; rfl
  | cons c t ih =>
    intro a h
    cases t with
    | nil =>
      simp only [List.cons_append, List.nil_append, spacedOK, Bool.or_eq_true,
        Bool.and_eq_true, beq_iff_eq] at h ⊢
      rcases h with ⟨hc, _⟩ | ⟨⟨hc, _⟩, _⟩
      · exact Or.inl hc
      · exact Or.inr hc
    | cons d r =>
      simp only [List.cons_append, spacedOK, Bool.or_eq_true, Bool.and_eq_true,
        beq_iff_eq] at h ⊢
      have hdr : spacedOK (d :: r) = true := by
        rcases h with ⟨_, hs⟩ | ⟨_, hs⟩ <;>
          exact ih a (by simpa [List.cons_append] using hs)
      rcases h with ⟨hc, _⟩ | ⟨⟨hc, hd⟩, _⟩
      · exact Or.inl ⟨hc, hdr⟩
      · exact Or.inr ⟨⟨hc, hd⟩, hdr⟩

theorem keptHeaded_append (ys : List Char) (a : Char)
    (h : keptHeaded (ys ++ [a]) = true) : keptHeaded ys = true := by
  cases ys with
  | nil => rfl
  | cons c t => simpa [keptHeaded, List.cons_append] using h

theorem keptLasted_append : ∀ (l : List Char) (a : Char),
    keptLasted (l ++ [a]) = isKeptChar a := by
  intro l
  induction l with
  | nil => intro a; rfl
  | cons c t ih =>
    intro a
    cases t with
    | nil => rfl
    | cons d r =>
      show keptLasted (c :: (d :: r) ++ [a]) = _
      rw [show keptLasted (c :: (d :: r) ++ [a]) = keptLasted ((d :: r) ++ [a]) from rfl]
      exact ih a

theorem subAux_true_keptHeaded : ∀ l : List Char, keptHeaded (subAux true l) = true := by
  intro l
  induction l with
  | nil => rfl
  | cons c rest ih =>
    by_cases hk : isKeptChar c = true
    · simp [subAux, hk, keptHeaded]
    · simpa [subAux, hk] using ih

theorem spacedOK_subAux : ∀ (l : List Char) (inRun : Bool),
    spacedOK (subAux inRun l) = true := by
  intro l
  induction l with
  | nil => intro _; rfl
  | cons c rest ih =>
    intro inRun
    by_cases hk : isKeptChar c = true
    · have : subAux inRun (c :: rest) = c :: subAux false rest := by
        cases inRun <;> simp [subAux, hk]
      rw [this]
      exact spacedOK_cons_kept hk (ih false)
    · cases inRun with
      | true => simpa [subAux, hk] using ih true
      | false =>
        have : subAux false (c :: rest) = ' ' :: subAux true rest := by
          simp [subAux, hk]
        rw [this]
        exact spacedOK_cons_space (ih true) (subAux_true_keptHeaded rest)

theorem stripL_keptHeaded {l : List Char} (h : keptHeaded l = true) : stripL l = l := by
  cases l with
  | nil => rfl
  | cons c t =>
    simp only [keptHeaded] at h
    simp [stripL, List.dropWhile_cons, kept_not_space h]

theorem stripL_good : ∀ l : List Char, spacedOK l = true →
    spacedOK (stripL l) = true ∧ keptHeaded (stripL l) = true := by
  intro l
  cases l with
  | nil => intro _; exact ⟨rfl, rfl⟩
  | cons c t =>
    intro hs
    rcases spacedOK_head hs with hc | hc
    · rw [stripL_keptHeaded (show keptHeaded (c :: t) = true from hc)]
      exact ⟨hs, hc⟩
    · subst hc
      have hdrop : stripL (' ' :: t) = stripL t := by
        simp [stripL, List.dropWhile_cons, (by decide : isPySpace ' ' = true)]
      rw [hdrop]
      cases t with
      | nil => exact ⟨rfl, rfl⟩
      | cons d r =>
        obtain ⟨hd, hs2⟩ := spacedOK_space_cons hs
        rw [stripL_keptHeaded (show keptHeaded (d :: r) = true from hd)]
        exact ⟨hs2, hd⟩

theorem stripR_append_space (l : List Char) (a : Char) (h : isPySpace a = true) :
    stripR (l ++ [a]) = stripR l := by
  simp [stripR, List.reverse_append, List.dropWhile_cons, h]

theorem stripR_append_keep (l : List Char) (a : Char) (h : isPySpace a = false) :
    stripR (l ++ [a]) = l ++ [a] := by
  simp [stripR, List.reverse_append, List.dropWhile_cons, h]

theorem stripR_keptLasted {l : List Char} (h : keptLasted l = true) : stripR l = l := by
  induction l using List.reverseRecOn with
  | nil => rfl
  | append_singleton ys a ih =>
    rw [keptLasted_append] at h
    exact stripR_append_keep ys a (kept_not_space h)

theorem stripR_good : ∀ l : List Char, spacedOK l = true → keptHeaded l = true →
    spacedOK (stripR l) = true ∧ keptHeaded (stripR l) = true ∧
      keptLasted (stripR l) = true := by
  intro l
  induction l using List.reverseRecOn with
  | nil => intro _ _; exact ⟨rfl, rfl, rfl⟩
  | append_singleton ys a ih =>
    intro hs hh
    by_cases ha : isPySpace a = true
    · rw [stripR_append_space ys a ha]
      exact ih (spacedOK_dropLast ys a hs) (keptHeaded_append ys a hh)
    · have ha' : isPySpace a = false := by simpa using ha
      rw [stripR_append_keep ys a ha']
      refine ⟨hs, hh, ?_⟩
      rw [keptLasted_append]
      rcases spacedOK_mem _ hs a (by simp) with hk | hsp
      · exact hk
      · subst hsp
        exact absurd (by decide : isPySpace ' ' = true) (by simp [ha'])

theorem keptHeaded_map_lower {l : List Char} (h : keptHeaded l = true) :
    keptHeaded (l.map pyLowerChar) = true := by
  cases l with
  | nil => rfl
  | cons c t =>
    simp only [keptHeaded] at h
    simpa [List.map_cons, keptHeaded] using isKeptChar_pyLower h

theorem keptLasted_map_lower : ∀ l : List Char, keptLasted l = true →
    keptLasted (l.map pyLowerChar) = true := by
  intro l
  induction l with
  | nil => intro _; rfl
  | cons c t ih =>
    intro h
    cases t with
    | nil =>
      simpa [List.map_cons, keptLasted] using isKeptChar_pyLower (by simpa [keptLasted] using h)
    | cons d r =>
      have : keptLasted (d :: r) = true := h
      simpa [List.map_cons, keptLasted] using ih this

theorem spacedOK_map_lower : ∀ l : List Char, spacedOK l = true →
    spacedOK (l.map pyLowerChar) = true := by
  intro l
  induction l with
  | nil => intro _; rfl
  | cons c t ih =>
    intro h
    cases t with
    | nil =>
      rcases spacedOK_head h with hc | hc
      · simp [List.map_cons, spacedOK, isKeptChar_pyLower hc]
      · subst hc
        simp [List.map_cons, spacedOK, pyLower_space]
    | cons d r =>
      simp only [spacedOK, Bool.or_eq_true, Bool.and_eq_true, beq_iff_eq] at h
      rcases h with ⟨hc, hs⟩ | ⟨⟨hc, hd⟩, hs⟩
      · have := ih (by simpa [spacedOK, Bool.or_eq_true, Bool.and_eq_true, beq_iff_eq] using hs)
        simp only [List.map_cons] at this ⊢
        simp [spacedOK, isKeptChar_pyLower hc]
        exact Or.inl (by simpa [spacedOK] using this)
      · subst hc
        have := ih (by simpa [spacedOK, Bool.or_eq_true, Bool.and_eq_true, beq_iff_eq] using hs)
        simp only [List.map_cons] at this ⊢
        simp [spacedOK, pyLower_space, isKeptChar_pyLower hd]
        exact Or.inr (by simpa [spacedOK] using this)

theorem map_lower_idem : ∀ l : List Char,
    (l.map pyLowerChar).map pyLowerChar = l.map pyLowerChar := by
  intro l
  induction l with
  | nil => rfl
  | cons c t ih => simp [List.map_cons, pyLower_idem, ih]

theorem subAux_fix : ∀ l : List Char, spacedOK l = true → keptLasted l = true →
    subAux false l = l ∧ (keptHeaded l = true → subAux true l = l) := by
  intro l
  induction l with
  | nil => intro _ _; exact ⟨rfl, fun _ => rfl⟩
  | cons c t ih =>
    intro hs hl
    rcases spacedOK_head hs with hc | hc
    · have ht := spacedOK_tail hs
      have hlt : keptLasted t = true := by
        cases t with
        | nil => rfl
        | cons d r => exact hl
      have h1 := (ih ht hlt).1
      constructor
      · simp [subAux, hc, h1]
      · intro _; simp [subAux, hc, h1]
    · subst hc
      cases t with
      | nil => exact absurd hl (by decide)
      | cons d r =>
        obtain ⟨hd, hs2⟩ := spacedOK_space_cons hs
        have hlt : keptLasted (d :: r) = true := hl
        have h2 := (ih hs2 hlt).2 (show keptHeaded (d :: r) = true from hd)
        constructor
        · rw [show subAux false (' ' :: d :: r) = ' ' :: subAux true (d :: r) from rfl, h2]
        · intro hh
          rw [show keptHeaded (' ' :: d :: r) = isKeptChar ' ' from rfl] at hh
          exact absurd hh (by decide)

theorem normalizeChars_good (l : List Char) :
    spacedOK (normalizeChars l) = true ∧ keptHeaded (normalizeChars l) = true ∧
      keptLasted (normalizeChars l) = true := by
  have h0 : spacedOK (subRuns (pyStripChars l)) = true := spacedOK_subAux _ false
  obtain ⟨h1, h2⟩ := stripL_good _ h0
  obtain ⟨h3, h4, h5⟩ := stripR_good _ h1 h2
  exact ⟨spacedOK_map_lower _ h3, keptHeaded_map_lower h4, keptLasted_map_lower _ h5⟩

theorem normalizeChars_fix (l : List Char) :
    normalizeChars (normalizeChars l) = normalizeChars l := by
  obtain ⟨hs, hh, hl⟩ := normalizeChars_good l
  have e1 : stripL (normalizeChars l) = normalizeChars l := stripL_keptHeaded hh
  have e2 : stripR (normalizeChars l) = normalizeChars l := stripR_keptLasted hl
  have e12 : pyStripChars (normalizeChars l) = normalizeChars l := by
    unfold pyStripChars; rw [e1, e2]
  have e3 : subRuns (normalizeChars l) = normalizeChars l := (subAux_fix _ hs hl).1
  calc normalizeChars (normalizeChars l)
      = (pyStripChars (subRuns (pyStripChars (normalizeChars l)))).map pyLowerChar := rfl
    _ = (pyStripChars (subRuns (normalizeChars l))).map pyLowerChar := by rw [e12]
    _ = (pyStripChars (normalizeChars l)).map pyLowerChar := by rw [e3]
    _ = (normalizeChars l).map pyLowerChar := by rw [e12]
    _ = normalizeChars l := map_lower_idem _

/-- Claim C6: normalization is idempotent —
normalize_word (normalize_word x) = normalize_word x for every string x. -/
theorem normalize_word_idempotent (s : String) :
    normalize_word (normalize_word s) = normalize_word s := by
  unfold normalize_word
  exact congrArg (fun l => (⟨l⟩ : String)) (normalizeChars_fix s.data)

/-! ## Ingestion run analysis -/

theorem increment_ok_of_step_ne (st : LoadingState) (inc : Int) (sample : Option String)
    (step limit : Int) (now : String) (h : ¬ step = 0) :
    (increment_processed st inc sample step limit now).2 =
      .ok (st.processed_words + inc) := by
  cases sample with
  | none => rfl
  | some w =>
    by_cases h1 : (w ≠ "" && pyStripString w ≠ "") = true
    · by_cases h3 : (st.processed_words + inc).fmod step = 0
      · simp only [increment_processed, if_pos h1, if_neg h, if_pos h3]
      · simp only [increment_processed, if_pos h1, if_neg h, if_neg h3]
    · simp only [increment_processed, if_neg h1]

theorem increment_step10 (st : LoadingState) (sample : Option String) (now : String) :
    (increment_processed st 1 sample 10 40 now).2 = .ok (st.processed_words + 1) :=
  increment_ok_of_step_ne st 1 sample 10 40 now (by decide)

theorem procRows_cons_nocancel (cancel : Nat → Bool) (times : Nat → String)
    (title : String) (wcol : Nat) (row : PyRow) (rest : List PyRow) (idx : Nat)
    (st : IngestSt) (hc : ¬ cancel st.polls = true) :
    procRows cancel times title wcol (row :: rest) idx st =
      procRows cancel times title wcol rest (idx + 1)
        (if (st.batch ++ [rowToEntry title wcol idx row]).length ≥ 10000 then
          { polls := st.polls + 1, clock := st.clock + 1,
            ls := (increment_processed st.ls 1 (some (displayOf wcol row)) 10 40
                    (times st.clock)).1,
            txn := st.txn ++ (st.batch ++ [rowToEntry title wcol idx row]),
            batch := [] }
        else
          { polls := st.polls + 1, clock := st.clock + 1,
            ls := (increment_processed st.ls 1 (some (displayOf wcol row)) 10 40
                    (times st.clock)).1,
            txn := st.txn,
            batch := st.batch ++ [rowToEntry title wcol idx row] }) := by
  simp only [procRows, if_neg hc, increment_step10]

theorem procSheets_cons_nocancel (cancel : Nat → Bool) (times : Nat → String)
    (s : Sheet) (rest : List Sheet) (st : IngestSt) (hc : ¬ cancel st.polls = true) :
    procSheets cancel times (s :: rest) st =
      match procRows cancel times s.title (wordColIdx s) s.rows 0
          { st with polls := st.polls + 1,
                    ls := set_current_sheet st.ls (some s.title) (times st.clock),
                    clock := st.clock + 1 } with
      | (some e, st2) => (some e, st2)
      | (none, st2) =>
        procSheets cancel times rest
          (if st2.batch = [] then st2
           else { st2 with txn := st2.txn ++ st2.batch, batch := [] }) := by
  simp only [procSheets, if_neg hc]

theorem procRows_none_spec (cancel : Nat → Bool) (times : Nat → String)
    (title : String) (wcol : Nat) :
    ∀ (rows : List PyRow) (idx : Nat) (st st' : IngestSt),
      procRows cancel times title wcol rows idx st = (none, st') →
      st'.txn ++ st'.batch = st.txn ++ st.batch ++ entriesFrom title wcol rows idx ∧
      st'.polls = st.polls + rows.length := by
  intro rows
  induction rows with
  | nil =>
    intro idx st st' h
    simp only [procRows] at h
    obtain ⟨rfl⟩ : st = st' := by cases h; rfl
    simp [entriesFrom]
  | cons row rest ih =>
    intro idx st st' h
    by_cases hc : cancel st.polls = true
    · simp only [procRows, if_pos hc] at h
      cases h
    · rw [procRows_cons_nocancel cancel times title wcol row rest idx st hc] at h
      obtain ⟨h1, h2⟩ := ih _ _ _ h
      constructor
      · rw [h1]
        have : ∀ b : IngestSt,
            b = (if (st.batch ++ [rowToEntry title wcol idx row]).length ≥ 10000 then
              { polls := st.polls + 1, clock := st.clock + 1,
                ls := (increment_processed st.ls 1 (some (displayOf wcol row)) 10 40
                        (times st.clock)).1,
                txn := st.txn ++ (st.batch ++ [rowToEntry title wcol idx row]),
                batch := [] }
            else
              { polls := st.polls + 1, clock := st.clock + 1,
                ls := (increment_processed st.ls 1 (some (displayOf wcol row)) 10 40
                        (times st.clock)).1,
                txn := st.txn,
                batch := st.batch ++ [rowToEntry title wcol idx row] }) →
            b.txn ++ b.batch = st.txn ++ (st.batch ++ [rowToEntry title wcol idx row]) := by
          intro b hb
          rw [hb]
          split <;> simp
        rw [this _ rfl]
        simp [entriesFrom, List.append_assoc]
      · rw [h2]
        have : ∀ b : IngestSt,
            b = (if (st.batch ++ [rowToEntry title wcol idx row]).length ≥ 10000 then
              { polls := st.polls + 1, clock := st.clock + 1,
                ls := (increment_processed st.ls 1 (some (displayOf wcol row)) 10 40
                        (times st.clock)).1,
                txn := st.txn ++ (st.batch ++ [rowToEntry title wcol idx row]),
                batch := [] }
            else
              { polls := st.polls + 1, clock := st.clock + 1,
                ls := (increment_processed st.ls 1 (some (displayOf wcol row)) 10 40
                        (times st.clock)).1,
                txn := st.txn,
                batch := st.batch ++ [rowToEntry title wcol idx row] }) →
            b.polls = st.polls + 1 := by
          intro b hb
          rw [hb]
          split <;> rfl
        rw [this _ rfl]
        simp [List.length_cons]
        omega

theorem procRows_none_iff (cancel : Nat → Bool) (times : Nat → String)
    (title : String) (wcol : Nat) :
    ∀ (rows : List PyRow) (idx : Nat) (st : IngestSt),
      (procRows cancel times title wcol rows idx st).1 = none ↔
      ∀ k, k < rows.length → cancel (st.polls + k) = false := by
  intro rows
  induction rows with
  | nil =>
    intro idx st
    simp [procRows]
  | cons row rest ih =>
    intro idx st
    by_cases hc : cancel st.polls = true
    · simp only [procRows, if_pos hc]
      constructor
      · intro h; cases h
      · intro h
        have h0 := h 0 (by simp)
        rw [Nat.add_zero] at h0
        rw [h0] at hc
        cases hc
    · have hcf : cancel st.polls = false := by simpa using hc
      rw [procRows_cons_nocancel cancel times title wcol row rest idx st hc]
      have hpolls : (if (st.batch ++ [rowToEntry title wcol idx row]).length ≥ 10000 then
          ({ polls := st.polls + 1, clock := st.clock + 1,
             ls := (increment_processed st.ls 1 (some (displayOf wcol row)) 10 40
                     (times st.clock)).1,
             txn := st.txn ++ (st.batch ++ [rowToEntry title wcol idx row]),
             batch := [] } : IngestSt)
        else
          { polls := st.polls + 1, clock := st.clock + 1,
            ls := (increment_processed st.ls 1 (some (displayOf wcol row)) 10 40
                    (times st.clock)).1,
            txn := st.txn,
            batch := st.batch ++ [rowToEntry title wcol idx row] }).polls = st.polls + 1 := by
        split <;> rfl
      rw [ih, hpolls]
      constructor
      · intro h k hk
        cases k with
        | zero => simpa using hcf
        | succ j =>
          have := h j (by simpa using Nat.lt_of_succ_lt_succ hk)
          rw [show st.polls + 1 + j = st.polls + (j + 1) from by omega] at this
          exact this
      · intro h k hk
        have := h (k + 1) (by simpa using Nat.succ_lt_succ hk)
        rw [show st.polls + (k + 1) = st.polls + 1 + k from by omega] at this
        exact this

theorem procRows_err (cancel : Nat → Bool) (times : Nat → String)
    (title : String) (wcol : Nat) :
    ∀ (rows : List PyRow) (idx : Nat) (st : IngestSt) (e : String) (st' : IngestSt),
      procRows cancel times title wcol rows idx st = (some e, st') →
      e = "loading cancelled" := by
  intro rows
  induction rows with
  | nil =>
    intro idx st e st' h
    simp [procRows] at h
  | cons row rest ih =>
    intro idx st e st' h
    by_cases hc : cancel st.polls = true
    · simp only [procRows, if_pos hc] at h
      obtain ⟨h1, -⟩ := Prod.mk.injEq .. ▸ h
      exact ((Option.some.injEq .. ▸ congrArg Prod.fst h).symm).symm ▸ rfl
    · rw [procRows_cons_nocancel cancel times title wcol row rest idx st hc] at h
      exact ih _ _ _ _ h

theorem procSheets_none_spec (cancel : Nat → Bool) (times : Nat → String) :
    ∀ (sheets : List Sheet) (st st' : IngestSt),
      procSheets cancel times sheets st = (none, st') → st.batch = [] →
      st'.txn = st.txn ++ allEntries sheets ∧ st'.batch = [] ∧
      st'.polls = st.polls + totalPolls sheets := by
  intro sheets
  induction sheets with
  | nil =>
    intro st st' h hb
    simp only [procSheets] at h
    obtain ⟨rfl⟩ : st = st' := by cases h; rfl
    simp [allEntries, totalPolls, hb]
  | cons s rest ih =>
    intro st st' h hb
    by_cases hc : cancel st.polls = true
    · simp only [procSheets, if_pos hc] at h
      cases h
    · rw [procSheets_cons_nocancel cancel times s rest st hc] at h
      rcases hr : procRows cancel times s.title (wordColIdx s) s.rows 0
          { st with polls := st.polls + 1,
                    ls := set_current_sheet st.ls (some s.title) (times st.clock),
                    clock := st.clock + 1 } with ⟨err, st2⟩
      rw [hr] at h
      cases err with
      | some e => exact absurd h (by simp)
      | none =>
        obtain ⟨ha, hp⟩ := procRows_none_spec cancel times s.title (wordColIdx s)
          s.rows 0 _ _ hr
        have h3txn : (if st2.batch = [] then st2
            else { st2 with txn := st2.txn ++ st2.batch, batch := [] }).txn =
            st2.txn ++ st2.batch := by
          split
          · rename_i hbe; simp [hbe]
          · rfl
        have h3b : (if st2.batch = [] then st2
            else { st2 with txn := st2.txn ++ st2.batch, batch := [] }).batch = [] := by
          split
          · rename_i hbe; exact hbe
          · rfl
        have h3p : (if st2.batch = [] then st2
            else { st2 with txn := st2.txn ++ st2.batch, batch := [] }).polls =
            st2.polls := by
          split <;> rfl
        obtain ⟨t1, t2, t3⟩ := ih _ _ h h3b
        refine ⟨?_, t2, ?_⟩
        · rw [t1, h3txn, ha]
          simp [allEntries, hb, List.append_assoc]
        · rw [t3, h3p, hp]
          simp only [totalPolls]
          omega

theorem procSheets_err (cancel : Nat → Bool) (times : Nat → String) :
    ∀ (sheets : List Sheet) (st : IngestSt) (e : String) (st' : IngestSt),
      procSheets cancel times sheets st = (some e, st') →
      e = "loading cancelled" := by
  intro sheets
  induction sheets with
  | nil =>
    intro st e st' h
    simp [procSheets] at h
  | cons s rest ih =>
    intro st e st' h
    by_cases hc : cancel st.polls = true
    · simp only [procSheets, if_pos hc] at h
      have := congrArg Prod.fst h
      simpa using this.symm
    · rw [procSheets_cons_nocancel cancel times s rest st hc] at h
      rcases hr : procRows cancel times s.title (wordColIdx s) s.rows 0
          { st with polls := st.polls + 1,
                    ls := set_current_sheet st.ls (some s.title) (times st.clock),
                    clock := st.clock + 1 } with ⟨err, st2⟩
      rw [hr] at h
      cases err with
      | some e2 =>
        have he2 := procRows_err cancel times s.title (wordColIdx s) s.rows 0 _ _ _ hr
        have := congrArg Prod.fst h
        simp only at this
        rw [← he2]
        exact (Option.some.injEq .. ▸ this).symm
      | none =>
        exact ih _ _ _ h

theorem procSheets_none_iff (cancel : Nat → Bool) (times : Nat → String) :
    ∀ (sheets : List Sheet) (st : IngestSt),
      (procSheets cancel times sheets st).1 = none ↔
      ∀ k, k < totalPolls sheets → cancel (st.polls + k) = false := by
  intro sheets
  induction sheets with
  | nil =>
    intro st
    simp [procSheets, totalPolls]
  | cons s rest ih =>
    intro st
    by_cases hc : cancel st.polls = true
    · simp only [procSheets, if_pos hc, totalPolls]
      constructor
      · intro h; cases h
      · intro h
        have h0 := h 0 (by omega)
        rw [Nat.add_zero] at h0
        rw [h0] at hc
        cases hc
    · have hcf : cancel st.polls = false := by simpa using hc
      rw [procSheets_cons_nocancel cancel times s rest st hc]
      rcases hr : procRows cancel times s.title (wordColIdx s) s.rows 0
          { st with polls := st.polls + 1,
                    ls := set_current_sheet st.ls (some s.title) (times st.clock),
                    clock := st.clock + 1 } with ⟨err, st2⟩
      have hrowsiff := procRows_none_iff cancel times s.title (wordColIdx s) s.rows 0
          { st with polls := st.polls + 1,
                    ls := set_current_sheet st.ls (some s.title) (times st.clock),
                    clock := st.clock + 1 }
      rw [hr] at hrowsiff
      cases err with
      | some e2 =>
        constructor
        · intro h; cases h
        · intro h
          have hall : ∀ k, k < s.rows.length → cancel (st.polls + 1 + k) = false := by
            intro k hk
            have := h (1 + k) (by simp only [totalPolls]; omega)
            rw [show st.polls + (1 + k) = st.polls + 1 + k from by omega] at this
            exact this
          have : (some e2 : Option String) = none := hrowsiff.mpr hall
          cases this
      | none =>
        obtain ⟨-, hp⟩ := procRows_none_spec cancel times s.title (wordColIdx s)
          s.rows 0 _ _ hr
        have hlit : ({ st with
                       polls := st.polls + 1,
                       ls := set_current_sheet st.ls (some s.title) (times st.clock),
                       clock := st.clock + 1 } : IngestSt).polls = st.polls + 1 := rfl
        have h3p : (if st2.batch = [] then st2
            else { st2 with txn := st2.txn ++ st2.batch, batch := [] }).polls =
            st2.polls := by
          split <;> rfl
        have hrows : ∀ k, k < s.rows.length → cancel (st.polls + 1 + k) = false := by
          have hmp := hrowsiff.mp rfl
          simpa only [hlit] using hmp
        show (procSheets cancel times rest
            (if st2.batch = [] then st2
             else { st2 with txn := st2.txn ++ st2.batch, batch := [] })).1 = none ↔ _
        rw [ih, h3p]
        constructor
        · intro h k hk
          simp only [totalPolls] at hk
          rcases Nat.lt_or_ge k 1 with h1 | h1
          · have hk0 : k = 0 := by omega
            subst hk0
            simpa using hcf
          · rcases Nat.lt_or_ge k (1 + s.rows.length) with h2 | h2
            · have := hrows (k - 1) (by omega)
              rw [show st.polls + 1 + (k - 1) = st.polls + k from by omega] at this
              exact this
            · have := h (k - (1 + s.rows.length)) (by omega)
              rw [hp, hlit] at this
              rw [show st.polls + 1 + s.rows.length + (k - (1 + s.rows.length)) =
                    st.polls + k from by omega] at this
              exact this
        · intro h j hj
          rw [hp, hlit]
          have := h (1 + s.rows.length + j) (by simp only [totalPolls]; omega)
          rw [show st.polls + (1 + s.rows.length + j) =
                st.polls + 1 + s.rows.length + j from by omega] at this
          exact this

theorem rebuild_dichotomy (wb : List Sheet) (cancel : Nat → Bool) (times : Nat → String)
    (ls0 : LoadingState) :
    ((rebuild wb cancel times ls0).1 = Except.ok () ∧
     (rebuild wb cancel times ls0).2.1.rows = allEntries wb ∧
     ∀ k, k < totalPolls wb → cancel k = false) ∨
    ((rebuild wb cancel times ls0).1 = Except.error "loading cancelled" ∧
     (rebuild wb cancel times ls0).2.1.rows = [] ∧
     ¬ ∀ k, k < totalPolls wb → cancel k = false) := by
  rcases hps : procSheets cancel times wb
      { polls := 0, clock := 1, ls := clear_error ls0 (times 0), txn := [], batch := [] }
    with ⟨err, stf⟩
  have hiff := procSheets_none_iff cancel times wb
      { polls := 0, clock := 1, ls := clear_error ls0 (times 0), txn := [], batch := [] }
  rw [hps] at hiff
  cases err with
  | some e =>
    right
    have he := procSheets_err cancel times wb _ e stf hps
    subst he
    have hr : rebuild wb cancel times ls0 =
        (.error "loading cancelled",
         { hasTable := true, rows := [], indexed := false }, stf.ls) := by
      simp only [rebuild]
      rw [hps]
    rw [hr]
    refine ⟨rfl, rfl, ?_⟩
    intro hall
    have hnone : (some "loading cancelled" : Option String) = none := by
      apply hiff.mpr
      intro k hk
      simpa using hall k hk
    cases hnone
  | none =>
    left
    obtain ⟨ht, -, -⟩ := procSheets_none_spec cancel times wb _ stf hps rfl
    have hr : rebuild wb cancel times ls0 =
        (.ok (), { hasTable := true, rows := stf.txn, indexed := true }, stf.ls) := by
      simp only [rebuild]
      rw [hps]
    rw [hr]
    refine ⟨rfl, by simpa using ht, ?_⟩
    intro k hk
    have := hiff.mp rfl k hk
    simpa using this

/-- Claim C2: when the shared cancellation flag is observed set at one
of the sheet-loop or row-loop poll points, the run fails with the
RuntimeError(loading cancelled) condition and the committed entries
table holds zero rows from the interrupted run; in every run the table
ends as either zero new rows or the full committed set, never a
partial count. -/
theorem rebuild_cancel_atomic (wb : List Sheet) (cancel : Nat → Bool)
    (times : Nat → String) (ls0 : LoadingState) :
    ((∃ k, k < totalPolls wb ∧ cancel k = true) →
      (rebuild wb cancel times ls0).1 = Except.error "loading cancelled" ∧
      (rebuild wb cancel times ls0).2.1.rows = []) ∧
    ((rebuild wb cancel times ls0).2.1.rows = [] ∨
      (rebuild wb cancel times ls0).2.1.rows = allEntries wb) := by
  rcases rebuild_dichotomy wb cancel times ls0 with ⟨h1, h2, h3⟩ | ⟨h1, h2, h3⟩
  · refine ⟨?_, Or.inr h2⟩
    rintro ⟨k, hk, hck⟩
    rw [h3 k hk] at hck
    cases hck
  · exact ⟨fun _ => ⟨h1, h2⟩, Or.inl h2⟩

/-- Witness for C2: a one-sheet one-row workbook with the flag set from
the start rolls back to an empty committed table. -/
theorem rebuild_cancel_atomic_witness :
    (∃ k, k < totalPolls wbSmall ∧ (fun _ => true : Nat → Bool) k = true) ∧
    ((rebuild wbSmall (fun _ => true) (fun _ => "t") defaultLoadingState).1 =
        Except.error "loading cancelled" ∧
     (rebuild wbSmall (fun _ => true) (fun _ => "t") defaultLoadingState).2.1.rows = []) :=
  ⟨⟨0, by decide, rfl⟩,
   (rebuild_cancel_atomic wbSmall (fun _ => true) (fun _ => "t")
      defaultLoadingState).1 ⟨0, by decide, rfl⟩⟩

theorem rowToEntry_word_norm (title : String) (wcol : Nat) (idx : Nat) (row : PyRow) :
    (rowToEntry title wcol idx row).word_norm =
      normalize_word ((rowToEntry title wcol idx row).word.getD "") := by
  by_cases h : displayOf wcol row = ""
  · simp [rowToEntry, h]
  · simp [rowToEntry, h]

theorem mem_entriesFrom_rowToEntry (title : String) (wcol : Nat) :
    ∀ (rows : List PyRow) (i : Nat) (e : Entry),
      e ∈ entriesFrom title wcol rows i →
      ∃ idx row, e = rowToEntry title wcol idx row := by
  intro rows
  induction rows with
  | nil => intro i e h; cases h
  | cons r rest ih =>
    intro i e h
    rcases List.mem_cons.mp h with rfl | h
    · exact ⟨i, r, rfl⟩
    · exact ih (i + 1) e h

theorem mem_allEntries : ∀ (wb : List Sheet) (e : Entry), e ∈ allEntries wb →
    ∃ t w i r, e = rowToEntry t w i r := by
  intro wb
  induction wb with
  | nil => intro e h; cases h
  | cons s rest ih =>
    intro e h
    rcases List.mem_append.mp (by simpa [allEntries] using h) with h | h
    · obtain ⟨i, r, rfl⟩ := mem_entriesFrom_rowToEntry s.title (wordColIdx s) s.rows 0 e h
      exact ⟨s.title, wordColIdx s, i, r, rfl⟩
    · exact ih e h

/-- Claim C5: normalize_word implements the word-normalization rule
(the scenario-B cell normalizes as specified), and every entry a
successful ingestion run commits carries word_norm equal to the
normalized form of its word — a total string, never null, also when
the word is empty (stored as None, normalizing to the empty string). -/
theorem word_norm_persisted :
    normalize_word " Don't-Stop! " = "don't-stop" ∧
    ∀ (wb : List Sheet) (cancel : Nat → Bool) (times : Nat → String)
        (ls0 : LoadingState),
      (rebuild wb cancel times ls0).1 = Except.ok () →
      ∀ e ∈ (rebuild wb cancel times ls0).2.1.rows,
        e.word_norm = normalize_word (e.word.getD "") := by
  refine ⟨rfl, ?_⟩
  intro wb cancel times ls0 hok e he
  rcases rebuild_dichotomy wb cancel times ls0 with ⟨-, h2, -⟩ | ⟨h1, -, -⟩
  · rw [h2] at he
    obtain ⟨t, w, i, r, rfl⟩ := mem_allEntries wb e he
    exact rowToEntry_word_norm t w i r
  · rw [h1] at hok
    cases hok

/-- Witness for C5 on the scenario-B workbook. -/
theorem word_norm_persisted_witness :
    (rebuild wbScenB (fun _ => false) (fun _ => "t") defaultLoadingState).1 =
      Except.ok () ∧
    rowToEntry "S" 1 0 [none, some " Don't-Stop! ", some "p", some "m"]
      ∈ (rebuild wbScenB (fun _ => false) (fun _ => "t") defaultLoadingState).2.1.rows ∧
    (rowToEntry "S" 1 0 [none, some " Don't-Stop! ", some "p", some "m"]).word_norm =
      normalize_word ((rowToEntry "S" 1 0
        [none, some " Don't-Stop! ", some "p", some "m"]).word.getD "") :=
  ⟨rfl, by decide,
   word_norm_persisted.2 wbScenB (fun _ => false) (fun _ => "t")
     defaultLoadingState rfl _ (by decide)⟩
